import Mathlib

/-!
Verification of the per-user event synchronization loop of
`internal/store/event_loop.go` (ProtonMail Bridge).

The Go source is shallowly embedded below:
  * pure routines (`updateMessage`, the label-reconciliation loops) become
    Lean functions over lists;
  * the deferred error classifier of `processNextEvent` becomes the
    function `classifyError`;
  * the stateful engine (`processNextEvent`, one iteration of `start`'s
    loop, the loop itself) becomes explicit state passing over
    `EngineState`, with the external collaborators (remote client, cursor
    cache, store appliers, sync coordinator) supplied as oracle
    parameters, mirroring their contracts.
-/

namespace EventLoop

/-- Error kinds surfaced by the remote client, the local store and the
cursor cache, as classified by `processNextEvent`'s deferred block
(`pmapi.ErrAPINotReachable`, `pmapi.ErrUpgradeApplication`,
`pmapi.ErrUnauthorized`, `pmapi.ErrInvalidToken`, `ErrNoSuchAPIID`, a
cursor-cache write failure, and any other error). `errors.Wrap` preserves
the cause that the classifier inspects, so errors are represented by their
cause kind. -/
inductive ApiErr where
  | notReachable
  | upgradeApplication
  | unauthorized
  | invalidToken
  | noSuchAPIID
  | cacheWrite
  | generic
deriving DecidableEq

/-- Events emitted on the bridge event bus (`internal/events`). -/
inductive BridgeEvent where
  | internetOff
  | internetOn
  | upgradeApplication
  | restartBridge
  | addressChanged (primary : String)
  | addressChangedLogout (email : String)
deriving DecidableEq

/-- `pmapi.Message`, restricted to the fields read or written by the event
loop (`updateMessage` and the message applier). `sender` models the
`*mail.Address` pointer as an optional value. -/
structure Message where
  id : String
  time : Int
  subject : String
  sender : Option String
  toList : List String
  ccList : List String
  bccList : List String
  unread : Bool
  flags : Int
  labelIDs : List String
deriving DecidableEq

/-- `pmapi.EventMessageUpdated`: the sparse patch carried by an
`update`/`update_flags` message delta. `none` models a nil pointer. -/
structure EventMessageUpdated where
  time : Int
  subject : Option String
  sender : Option String
  toList : Option (List String)
  ccList : Option (List String)
  bccList : Option (List String)
  unread : Option Bool
  flags : Option Int
  labelIDs : Option (List String)
  labelIDsAdded : List String
  labelIDsRemoved : List String
deriving DecidableEq

/-- The `for _, added := range updates.LabelIDsAdded` loop of
`updateMessage`: each added id is appended to the current list unless the
(evolving) list already contains it. -/
def addLabels (cur : List String) (added : List String) : List String :=
  added.foldl (fun acc a => if a ∈ acc then acc else acc ++ [a]) cur

/-- The removal loop of `updateMessage`: rebuild the label list, dropping
every id that occurs in `removed`. -/
def removeLabelsImpl (removed : List String) (cur : List String) : List String :=
  cur.foldl (fun acc l => if l ∈ removed then acc else acc ++ [l]) []

/-- `updateMessage` of `event_loop.go`: merge a sparse patch into a
message. `Time` is copied unconditionally; every other scalar field only
when present; labels are either replaced wholesale (`LabelIDs` present) or
reconciled by the add/remove loops. -/
def updateMessage (m : Message) (u : EventMessageUpdated) : Message :=
  let m := { m with time := u.time }
  let m := match u.subject with
    | some s => { m with subject := s }
    | none => m
  let m := match u.sender with
    | some s => { m with sender := some s }
    | none => m
  let m := match u.toList with
    | some l => { m with toList := l }
    | none => m
  let m := match u.ccList with
    | some l => { m with ccList := l }
    | none => m
  let m := match u.bccList with
    | some l => { m with bccList := l }
    | none => m
  let m := match u.unread with
    | some b => { m with unread := b }
    | none => m
  let m := match u.flags with
    | some f => { m with flags := f }
    | none => m
  match u.labelIDs with
  | some ls => { m with labelIDs := ls }
  | none =>
      { m with labelIDs :=
          removeLabelsImpl u.labelIDsRemoved (addLabels m.labelIDs u.labelIDsAdded) }

/-! ### Spec-level label reconciliation

The specification describes the label merge as: union `LabelIDsAdded` into
the current set (no duplicates, existing order preserved, new ids appended
at the end), then remove `LabelIDsRemoved` as an order-preserving
set-difference. The following definitions state that description directly
and are proved equal to the implementation's loops. -/

/-- Ids of `l` that do not occur in `cur` (order preserved). -/
def filterNotIn (cur : List String) : List String → List String
  | [] => []
  | x :: rest =>
      if x ∈ cur then filterNotIn cur rest else x :: filterNotIn cur rest

/-- Drop every occurrence of `a`. -/
def removeId (a : String) : List String → List String
  | [] => []
  | x :: rest => if x = a then removeId a rest else x :: removeId a rest

theorem removeId_length_le (a : String) (l : List String) :
    (removeId a l).length ≤ l.length := by
  induction l with
  | nil => simp [removeId]
  | cons x rest ih =>
      by_cases h : x = a
      · simp [removeId, h]
        exact Nat.le_succ_of_le ih
      · simpa [removeId, h] using Nat.succ_le_succ ih

/-- Keep only the first occurrence of each id. -/
def dedupKeepFirst : List String → List String
  | [] => []
  | a :: rest => a :: dedupKeepFirst (removeId a rest)
termination_by l => l.length
decreasing_by
  simp only [List.length_cons]
  exact Nat.lt_succ_of_le (removeId_length_le _ _)

/-- Order-preserving set difference (the spec's removal phase). -/
def removeLabels (removed : List String) : List String → List String
  | [] => []
  | l :: rest =>
      if l ∈ removed then removeLabels removed rest
      else l :: removeLabels removed rest

/-- The label merge exactly as the specification words it: append the new
ids of `added` (first occurrences only) behind the unchanged current list,
then delete the removed ids preserving the order of what remains. -/
def mergeLabelsSpec (cur added removed : List String) : List String :=
  removeLabels removed (cur ++ dedupKeepFirst (filterNotIn cur added))

/-! ### Message deltas and the message applier (`processMessages`)

The local message database and the remote message endpoint are external
collaborators; they are embedded by their contracts as association lists
keyed by message id. `getMessageFromDB` / `fetchMessage` report a missing
id as `ErrNoSuchAPIID`; the writes (`createOrUpdateMessageEvent`,
`deleteMessageEvent`) are embedded by their success behaviour. -/

/-- `pmapi` event actions (`EventDelete`, `EventCreate`, `EventUpdate`,
`EventUpdateFlags`), shared by address, label and message deltas. -/
inductive EventAction where
  | delete
  | create
  | update
  | updateFlags
deriving DecidableEq

/-- `pmapi.EventMessage`: one message delta. `created` / `updated` model
the nilable payload pointers. -/
structure EventMessage where
  id : String
  action : EventAction
  created : Option Message
  updated : Option EventMessageUpdated
deriving DecidableEq

/-- A message store (local DB or remote view): id-keyed association list. -/
abbrev MsgStore := List (String × Message)

/-- Store lookup; `none` models `ErrNoSuchAPIID`. -/
def lookupMessage (db : MsgStore) (id : String) : Option Message :=
  (db.find? (fun p => p.1 == id)).map (·.2)

/-- `createOrUpdateMessageEvent`: upsert keyed by the message's id. -/
def putMessage (db : MsgStore) (m : Message) : MsgStore :=
  if db.any (fun p => p.1 == m.id) then
    db.map (fun p => if p.1 == m.id then (m.id, m) else p)
  else db ++ [(m.id, m)]

/-- `deleteMessageEvent`: remove by id. -/
def deleteMessage (db : MsgStore) (id : String) : MsgStore :=
  db.filter (fun p => p.1 != id)

/-- One arm of `processMessages`'s `switch message.Action`, threading the
named return variable `err` exactly as the Go source does:
  * `create` with nil payload: `break` — store and `err` both untouched;
  * `create`: upsert, `err` becomes nil;
  * `update`/`update_flags` with nil patch: `break` — untouched;
  * `update`/`update_flags`: local lookup, on `ErrNoSuchAPIID` a remote
    fetch, on a second `ErrNoSuchAPIID` a `continue` that leaves
    `err = ErrNoSuchAPIID` in the named return; otherwise merge the patch
    with `updateMessage` and upsert (`err` nil);
  * `delete`: remove, `err` nil.
The source's `if err != nil { return … }` after the lookups is unreachable
under the collaborator contract (lookups fail only with `ErrNoSuchAPIID`,
which either continues or is replaced by the fetch result). -/
def processMsgDelta (remote : MsgStore) (db : MsgStore) (err : Option ApiErr)
    (m : EventMessage) : MsgStore × Option ApiErr :=
  match m.action with
  | .create =>
      match m.created with
      | none => (db, err)
      | some msg => (putMessage db msg, none)
  | .update | .updateFlags =>
      match m.updated with
      | none => (db, err)
      | some u =>
          match lookupMessage db m.id with
          | some msg => (putMessage db (updateMessage msg u), none)
          | none =>
              match lookupMessage remote m.id with
              | some msg => (putMessage db (updateMessage msg u), none)
              | none => (db, some .noSuchAPIID)
  | .delete => (deleteMessage db m.id, none)

/-- `processMessages` of `event_loop.go`: fold the deltas in order,
returning the final store and the final value of the named return `err`. -/
def processMessages (remote : MsgStore) (db : MsgStore)
    (msgs : List EventMessage) : MsgStore × Option ApiErr :=
  msgs.foldl (fun st m => processMsgDelta remote st.1 st.2 m) (db, none)

/-- Example message and sparse patch (scenario `S4` of the spec): the
message carries labels `L1, L2`; the patch adds `L3` and removes `L1`. -/
def msgEx : Message :=
  { id := "m1", time := 0, subject := "s", sender := none, toList := [],
    ccList := [], bccList := [], unread := true, flags := 0,
    labelIDs := ["L1", "L2"] }

/-- The `S4` patch: `LabelIDsAdded = [L3]`, `LabelIDsRemoved = [L1]`, no
full `LabelIDs` replacement, every scalar field absent. -/
def patchEx : EventMessageUpdated :=
  { time := 5, subject := none, sender := none, toList := none,
    ccList := none, bccList := none, unread := none, flags := none,
    labelIDs := none, labelIDsAdded := ["L3"], labelIDsRemoved := ["L1"] }

/-- A stale `update` delta: id `mX`, carrying the `S4` patch. -/
def updEx : EventMessage :=
  { id := "mX", action := .update, created := none, updated := some patchEx }

/-- A well-formed `create` delta carrying `msgEx`. -/
def createEx : EventMessage :=
  { id := "m1", action := .create, created := some msgEx, updated := none }

/-- A `create` delta whose `Created` payload is nil. -/
def createNilEx : EventMessage :=
  { id := "mN", action := .create, created := none, updated := none }

/-! ### The event loop engine

`processNextEvent`, the deferred error classifier, `setFirstEventID` and
one iteration of `start`'s select loop. The collaborators (remote client,
cursor cache, store appliers, sync coordinator) are supplied through an
oracle record whose fields mirror their contracts; the store's state is an
abstract type `σ` transformed by the appliers. -/

/-- `pmapi.Address` (fields used by the event loop). -/
structure Address where
  id : String
  email : String
  receive : Bool
deriving DecidableEq

/-- `pmapi.EventAddress`: one address delta. -/
structure EventAddress where
  id : String
  action : EventAction
  address : Address
deriving DecidableEq

/-- `pmapi.Label` (fields used by the event loop). -/
structure Label where
  id : String
  name : String
deriving DecidableEq

/-- `pmapi.EventLabel`: one label delta. -/
structure EventLabel where
  id : String
  action : EventAction
  label : Label
deriving DecidableEq

/-- `pmapi.MessagesCount`: per-mailbox count probe. -/
structure MessagesCount where
  labelID : String
  total : Nat
  unread : Nat
deriving DecidableEq

/-- `pmapi.EventRefreshMail`: the MAIL bit of the refresh bitmask. -/
def eventRefreshMail : Nat := 1

/-- `pmapi.Event`: one event from the remote log. -/
structure Event where
  eventID : String
  more : Nat
  refresh : Nat
  addresses : List EventAddress
  labels : List EventLabel
  messages : List EventMessage
  messageCounts : List MessagesCount
  notices : List String
deriving DecidableEq

/-- Outcome of the deferred classifier: the error that survives, the
bridge events emitted, and the resulting `hasInternet` flag. -/
structure ClassifyResult where
  err : Option ApiErr
  emits : List BridgeEvent
  hasInternet : Bool
deriving DecidableEq

/-- The deferred block of `processNextEvent`, run on every return path, in
source order:
1. cause is `ErrAPINotReachable` → emit `InternetOff`, clear
   `hasInternet`, nil the error;
2. error still non-nil and `isFdCloseToULimit()` → emit `RestartBridge`,
   nil the error;
3. cause is `ErrUpgradeApplication` → emit `UpgradeApplication`, nil the
   error;
4. anything still non-nil that is neither `*ErrUnauthorized` nor
   `ErrInvalidToken` is swallowed.
`errors.Cause` unwraps `errors.Wrap`, so a wrapped fatal error is still
recognised. -/
def classifyError (e : Option ApiErr) (fdNearULimit : Bool)
    (hasInternet : Bool) : ClassifyResult :=
  let s1 : Option ApiErr × List BridgeEvent × Bool :=
    match e with
    | some .notReachable => (none, [.internetOff], false)
    | _ => (e, [], hasInternet)
  let s2 : Option ApiErr × List BridgeEvent :=
    if s1.1.isSome && fdNearULimit then (none, s1.2.1 ++ [.restartBridge])
    else (s1.1, s1.2.1)
  let s3 : Option ApiErr × List BridgeEvent :=
    match s2.1 with
    | some .upgradeApplication => (none, s2.2 ++ [.upgradeApplication])
    | _ => s2
  let s4 : Option ApiErr :=
    match s3.1 with
    | some .unauthorized => some .unauthorized
    | some .invalidToken => some .invalidToken
    | _ => none
  ⟨s4, s3.2, s1.2.2⟩

/-- The engine's state: the in-memory cursor `currentEventID`, the
`hasInternet` flag, the durable cursor held by the cache
(`cacheEventID`), and the store's state. -/
structure EngineState (σ : Type) where
  currentEventID : String
  hasInternet : Bool
  cacheEventID : String
  store : σ

/-- Collaborator behaviour for one iteration: the remote client
(`getEvent`), the outcomes of the two possible `cache.setEventID` calls,
the FD probe, the sync coordinator's `isSyncFinished`, and the five
appliers plus `triggerSync` acting on the store state `σ`. -/
structure IterOracle (σ : Type) where
  getEvent : String → Except ApiErr Event
  firstSetOK : Bool
  setOK : Bool
  fdNearULimit : Bool
  syncFinished : Bool
  applyAddresses : List EventAddress → σ → σ × Option ApiErr
  applyLabels : List EventLabel → σ → σ × Option ApiErr
  applyMessages : List EventMessage → σ → σ × Option ApiErr
  applyMessageCounts : List MessagesCount → σ → σ × Option ApiErr
  applyNotices : List String → σ → σ
  triggerSync : σ → σ

/-- Short-circuiting sequencing of applier results (each
`if err = …; err != nil { return }` in `processEvent`). -/
def applyStep {σ : Type} (r : σ × Option ApiErr) (f : σ → σ × Option ApiErr) :
    σ × Option ApiErr :=
  match r with
  | (st, some e) => (st, some e)
  | (st, none) => f st

/-- `processEvent` of `event_loop.go`: if the refresh bitmask has the MAIL
bit, trigger a full sync and return nil without touching any applier;
otherwise run the appliers in the fixed order Addresses → Labels →
Messages → MessageCounts → Notices, each guarded by a non-emptiness check
and short-circuiting on error. -/
def processEvent {σ : Type} (o : IterOracle σ) (ev : Event) (st : σ) :
    σ × Option ApiErr :=
  if ev.refresh &&& eventRefreshMail ≠ 0 then
    (o.triggerSync st, none)
  else
    let r := if ev.addresses ≠ [] then o.applyAddresses ev.addresses st else (st, none)
    let r := applyStep r (fun st =>
      if ev.labels ≠ [] then o.applyLabels ev.labels st else (st, none))
    let r := applyStep r (fun st =>
      if ev.messages ≠ [] then o.applyMessages ev.messages st else (st, none))
    let r := applyStep r (fun st =>
      if ev.messageCounts ≠ [] then o.applyMessageCounts ev.messageCounts st else (st, none))
    match r with
    | (st, some e) => (st, some e)
    | (st, none) =>
        (if ev.notices ≠ [] then o.applyNotices ev.notices st else st, none)

/-- Result of `processNextEvent`: the new engine state, the returned
`(more, err)` pair, the bridge events emitted during the call, and — as
ghost instrumentation for stating the cursor invariant — the id of the
event this call successfully applied, if any. -/
structure PNEResult (σ : Type) where
  state : EngineState σ
  more : Bool
  err : Option ApiErr
  emits : List BridgeEvent
  appliedEvent : Option String

/-- `processNextEvent` of `event_loop.go`:
fetch `GetEvent(currentEventID)`; on success emit `InternetOn` if the
engine believed it was offline; apply the event via `processEvent`; on
success advance the in-memory cursor and, when it actually moved, attempt
to persist it — a persist failure is returned as an error (with `more`
forced to `false`) but does not roll back the in-memory cursor. Every
return value passes through the deferred classifier `classifyError`. -/
def processNextEvent {σ : Type} (o : IterOracle σ) (s : EngineState σ) :
    PNEResult σ :=
  match o.getEvent s.currentEventID with
  | .error e =>
      let c := classifyError (some e) o.fdNearULimit s.hasInternet
      ⟨{ s with hasInternet := c.hasInternet }, false, c.err, c.emits, none⟩
  | .ok ev =>
      let onEmits : List BridgeEvent := if s.hasInternet then [] else [.internetOn]
      let s := if s.hasInternet then s else { s with hasInternet := true }
      match processEvent o ev s.store with
      | (st, some e) =>
          let c := classifyError (some e) o.fdNearULimit s.hasInternet
          ⟨{ s with store := st, hasInternet := c.hasInternet }, false, c.err,
            onEmits ++ c.emits, none⟩
      | (st, none) =>
          let s := { s with store := st }
          if s.currentEventID ≠ ev.eventID then
            let s := { s with currentEventID := ev.eventID }
            if o.setOK then
              let s := { s with cacheEventID := ev.eventID }
              let c := classifyError none o.fdNearULimit s.hasInternet
              ⟨s, ev.more == 1, c.err, onEmits ++ c.emits, some ev.eventID⟩
            else
              let c := classifyError (some .cacheWrite) o.fdNearULimit s.hasInternet
              ⟨{ s with hasInternet := c.hasInternet }, false, c.err,
                onEmits ++ c.emits, some ev.eventID⟩
          else
            let c := classifyError none o.fdNearULimit s.hasInternet
            ⟨s, ev.more == 1, c.err, onEmits ++ c.emits, some ev.eventID⟩

/-- `setFirstEventID` of `event_loop.go`: `GetEvent("")`, advance the
in-memory cursor to the head id, then attempt to persist it; either
failure is returned (the caller only logs it). The third component is
ghost instrumentation: the head id fetched, when the fetch succeeded. -/
def setFirstEventID {σ : Type} (o : IterOracle σ) (s : EngineState σ) :
    EngineState σ × Option ApiErr × Option String :=
  match o.getEvent "" with
  | .error e => (s, some e, none)
  | .ok ev =>
      let s := { s with currentEventID := ev.eventID }
      if o.firstSetOK then ({ s with cacheEventID := ev.eventID }, none, some ev.eventID)
      else (s, some .cacheWrite, some ev.eventID)

/-- What the engine does after `processNextEvent` returns: a non-nil
(classified) error terminates the loop after a `Logout`; otherwise the
loop keeps running, spawning a self-`pollNow` when the event had
`More == 1`. -/
inductive Decision where
  | exitFatal
  | keepRunning (pollNowScheduled : Bool)
deriving DecidableEq

/-- Result of one iteration of `start`'s select loop: the engine state,
the ghost list of cursor-eligible ids (successfully applied events plus
the initialisation head id), the loop decision, how many times the engine
itself called `user.Logout()`, and the bridge events emitted. -/
structure IterResult (σ : Type) where
  state : EngineState σ
  applied : List String
  decision : Decision
  engineLogouts : Nat
  emits : List BridgeEvent

/-- The tail of one loop iteration of `start`, after the cursor has been
initialised: re-trigger sync when unfinished (`if !isSyncFinished then
triggerSync`), run `processNextEvent`, then either log out and exit on a
(classified) error or keep running — scheduling an immediate self-`pollNow`
when `more` was reported. -/
def runIterationCore {σ : Type} (o : IterOracle σ) (s : EngineState σ)
    (applied : List String) : IterResult σ :=
  let s := if o.syncFinished then s else { s with store := o.triggerSync s.store }
  let r := processNextEvent o s
  let applied :=
    match r.appliedEvent with
    | some id => applied ++ [id]
    | none => applied
  match r.err with
  | some _ => ⟨r.state, applied, .exitFatal, 1, r.emits⟩
  | none => ⟨r.state, applied, .keepRunning r.more, 0, r.emits⟩

/-- One iteration of the loop body of `start` (after the select):
initialise the cursor via `setFirstEventID` when it is still the empty
sentinel (failures only logged), then run the iteration tail. -/
def runIteration {σ : Type} (o : IterOracle σ) (s : EngineState σ)
    (applied : List String) : IterResult σ :=
  let firstRes :=
    if s.currentEventID = "" then setFirstEventID o s else (s, none, none)
  let applied :=
    match firstRes.2.2 with
    | some id => applied ++ [id]
    | none => applied
  runIterationCore o firstRes.1 applied

/-- The loop of `start`: run iterations until a fatal error exits, each
iteration driven by its own collaborator behaviour. -/
def runLoop {σ : Type} :
    List (IterOracle σ) → EngineState σ → List String →
      EngineState σ × List String
  | [], s, applied => (s, applied)
  | o :: os, s, applied =>
      let r := runIteration o s applied
      match r.decision with
      | .exitFatal => (r.state, r.applied)
      | .keepRunning _ => runLoop os r.state r.applied

/-- Engine state at `start`: in-memory cursor read from the cache,
`hasInternet` optimistically true. -/
def initEngine {σ : Type} (cacheValue : String) (st : σ) : EngineState σ :=
  ⟨cacheValue, true, cacheValue, st⟩

/-- `processAddresses` of `event_loop.go`, embedded by its observable
effects: the bridge events it emits, how many times it calls
`user.Logout()`, and the error it returns. The previous address list is
snapshotted first; a failing `UpdateUser()` logs the user out and
propagates the error. Then each delta in order: `create` emits
`AddressChanged` with the primary address; `update` of a known address
emits `AddressChangedLogout` when the `Receive` flag flipped; `delete` of
a known address emits `AddressChangedLogout`; deltas for unknown
addresses are logged and skipped. The trailing store propagation is a
collaborator call embedded by its success behaviour. -/
def processAddresses (oldList : List Address) (updateUserErr : Option ApiErr)
    (primary : String) (deltas : List EventAddress) :
    List BridgeEvent × Nat × Option ApiErr :=
  match updateUserErr with
  | some e => ([], 1, some e)
  | none =>
      (deltas.foldl (fun acc d =>
        match d.action with
        | .create => acc ++ [.addressChanged primary]
        | .update =>
            match oldList.find? (fun a => a.id == d.id) with
            | none => acc
            | some old =>
                if d.address.receive != old.receive then
                  acc ++ [.addressChangedLogout old.email]
                else acc
        | .delete =>
            match oldList.find? (fun a => a.id == d.id) with
            | none => acc
            | some old => acc ++ [.addressChangedLogout old.email]
        | .updateFlags => acc) [], 0, none)

/-! ### Concrete collaborators for witnesses and counterexamples

`Nat`-store oracles whose appliers visibly mutate the store (`+ 100`) and
whose `triggerSync` increments it by one, so that a run shows which of
them executed. -/

/-- An oracle over a `Nat` store: given the remote client's behaviour and
the persist/FD outcomes, appliers add `100` to the store and
`triggerSync` adds `1`. -/
def natAppliersOracle (fetch : String → Except ApiErr Event)
    (setOK fd : Bool) : IterOracle Nat :=
  { getEvent := fetch
    firstSetOK := true
    setOK := setOK
    fdNearULimit := fd
    syncFinished := true
    applyAddresses := fun _ n => (n + 100, none)
    applyLabels := fun _ n => (n + 100, none)
    applyMessages := fun _ n => (n + 100, none)
    applyMessageCounts := fun _ n => (n + 100, none)
    applyNotices := fun _ n => n + 100
    triggerSync := fun n => n + 1 }

/-- The `S5` refresh event: MAIL bit set, with a message delta on board
that must be ignored. -/
def evC2 : Event :=
  { eventID := "e5", more := 0, refresh := 1, addresses := [], labels := [],
    messages := [createEx], messageCounts := [], notices := [] }

/-- An event with `More = 1` and no deltas. -/
def evMore : Event :=
  { eventID := "e1", more := 1, refresh := 0, addresses := [], labels := [],
    messages := [], messageCounts := [], notices := [] }

/-- Oracle serving the refresh event `evC2`, persist succeeding. -/
def oC2 : IterOracle Nat := natAppliersOracle (fun _ => .ok evC2) true false

/-- Oracle serving `evMore` with a failing cursor persist. -/
def oC6fail : IterOracle Nat := natAppliersOracle (fun _ => .ok evMore) false false

/-- Oracle serving `evMore` with a succeeding cursor persist. -/
def oC6ok : IterOracle Nat := natAppliersOracle (fun _ => .ok evMore) true false

/-- Oracle whose fetch fails with `ErrAPINotReachable` while the FD probe
fires. -/
def oNotReachFd : IterOracle Nat :=
  natAppliersOracle (fun _ => .error .notReachable) true true

/-- Oracle whose fetch fails with a generic error while the FD probe
fires. -/
def oGenFd : IterOracle Nat :=
  natAppliersOracle (fun _ => .error .generic) true true

/-- Oracle whose fetch fails with `ErrInvalidToken` while the FD probe
fires. -/
def oInvFd : IterOracle Nat :=
  natAppliersOracle (fun _ => .error .invalidToken) true true

/-- Oracle whose fetch fails with `ErrInvalidToken`, FD probe quiet. -/
def oInvTok : IterOracle Nat :=
  natAppliersOracle (fun _ => .error .invalidToken) true false

/-- A started engine with cursor `e0` and a zeroed `Nat` store. -/
def sEng : EngineState Nat := ⟨"e0", true, "e0", 0⟩

/-- An address `update` delta. -/
def addrEx : EventAddress :=
  { id := "a1", action := .update, address := ⟨"a1", "user@x", true⟩ }

/-- An event whose only payload is the address delta `addrEx`. -/
def evAddr : Event :=
  { eventID := "eA", more := 0, refresh := 0, addresses := [addrEx],
    labels := [], messages := [], messageCounts := [], notices := [] }

/-- Oracle whose address applier is `processAddresses` with a failing
`UpdateUser()` (kind `ErrInvalidToken`); the `Nat` store counts the
Logout calls made inside the applier. -/
def oUpd : IterOracle Nat :=
  { getEvent := fun _ => .ok evAddr
    firstSetOK := true
    setOK := true
    fdNearULimit := false
    syncFinished := true
    applyAddresses := fun ds n =>
      (n + (processAddresses [] (some .invalidToken) "primary" ds).2.1,
        (processAddresses [] (some .invalidToken) "primary" ds).2.2)
    applyLabels := fun _ n => (n, none)
    applyMessages := fun _ n => (n, none)
    applyMessageCounts := fun _ n => (n, none)
    applyNotices := fun _ n => n
    triggerSync := fun n => n }

/-- Scenario `S3`'s event: a single stale `update` delta for id `mX`. -/
def evC9 : Event :=
  { eventID := "e3", more := 0, refresh := 0, addresses := [], labels := [],
    messages := [updEx], messageCounts := [], notices := [] }

/-- Oracle over a real message store whose message applier is the real
`processMessages` with an empty remote view. -/
def oC9 : IterOracle MsgStore :=
  { getEvent := fun _ => .ok evC9
    firstSetOK := true
    setOK := true
    fdNearULimit := false
    syncFinished := true
    applyAddresses := fun _ db => (db, none)
    applyLabels := fun _ db => (db, none)
    applyMessages := fun ms db => processMessages [] db ms
    applyMessageCounts := fun _ db => (db, none)
    applyNotices := fun _ db => db
    triggerSync := fun db => db }

/-- A started engine over an empty message store, cursor `e2`. -/
def sC9 : EngineState MsgStore := ⟨"e2", true, "e2", []⟩

theorem addLabels_nil (cur : List String) : addLabels cur [] = cur := rfl

theorem addLabels_cons (cur : List String) (a : String) (added : List String) :
    addLabels cur (a :: added) =
      addLabels (if a ∈ cur then cur else cur ++ [a]) added := by
  by_cases h : a ∈ cur <;> simp [addLabels, h]

theorem mem_removeId (x a : String) (l : List String) :
    x ∈ removeId a l ↔ x ∈ l ∧ x ≠ a := by
  induction l with
  | nil => simp [removeId]
  | cons y rest ih =>
      by_cases h : y = a <;> simp [removeId, h, ih] <;> aesop

theorem mem_dedupKeepFirst (x : String) (l : List String) :
    x ∈ dedupKeepFirst l ↔ x ∈ l := by
  induction l using dedupKeepFirst.induct with
  | case1 => simp [dedupKeepFirst]
  | case2 a rest ih =>
      simp only [dedupKeepFirst, List.mem_cons, ih, mem_removeId]
      by_cases h : x = a
      · simp [h]
      · simp [h]

theorem mem_filterNotIn (x : String) (cur l : List String) :
    x ∈ filterNotIn cur l ↔ x ∈ l ∧ x ∉ cur := by
  induction l with
  | nil => simp [filterNotIn]
  | cons y rest ih =>
      by_cases h : y ∈ cur <;> simp [filterNotIn, h, ih] <;> aesop

theorem mem_removeLabels (x : String) (removed l : List String) :
    x ∈ removeLabels removed l ↔ x ∈ l ∧ x ∉ removed := by
  induction l with
  | nil => simp [removeLabels]
  | cons y rest ih =>
      by_cases h : y ∈ removed <;> simp [removeLabels, h, ih] <;> aesop

theorem removeLabels_append (removed l₁ l₂ : List String) :
    removeLabels removed (l₁ ++ l₂) =
      removeLabels removed l₁ ++ removeLabels removed l₂ := by
  induction l₁ with
  | nil => simp [removeLabels]
  | cons y rest ih =>
      by_cases h : y ∈ removed <;> simp [removeLabels, h, ih]

theorem removeLabels_idem (removed l : List String) :
    removeLabels removed (removeLabels removed l) = removeLabels removed l := by
  induction l with
  | nil => simp [removeLabels]
  | cons y rest ih =>
      by_cases h : y ∈ removed <;> simp [removeLabels, h, ih]

theorem removeLabels_eq_nil (removed l : List String)
    (h : ∀ x ∈ l, x ∈ removed) : removeLabels removed l = [] := by
  induction l with
  | nil => rfl
  | cons y rest ih =>
      have hy : y ∈ removed := h y (List.mem_cons_self y rest)
      simp only [removeLabels, if_pos hy]
      exact ih fun x hx => h x (List.mem_cons_of_mem y hx)

theorem mem_addLabels (x : String) (cur added : List String) :
    x ∈ addLabels cur added ↔ x ∈ cur ∨ x ∈ added := by
  induction added generalizing cur with
  | nil => simp [addLabels_nil]
  | cons a rest ih =>
      rw [addLabels_cons]
      by_cases h : a ∈ cur
      · rw [if_pos h, ih]
        constructor
        · rintro (hx | hx)
          · exact Or.inl hx
          · exact Or.inr (List.mem_cons_of_mem a hx)
        · rintro (hx | hx)
          · exact Or.inl hx
          · rcases List.mem_cons.mp hx with rfl | hx
            · exact Or.inl h
            · exact Or.inr hx
      · rw [if_neg h, ih]
        simp only [List.mem_append, List.mem_singleton, List.mem_cons]
        tauto

/-- `filterNotIn` against an extended exclusion list equals dropping the new
id from the original filtering. -/
theorem filterNotIn_append_singleton (cur : List String) (a : String)
    (l : List String) :
    filterNotIn (cur ++ [a]) l = removeId a (filterNotIn cur l) := by
  induction l with
  | nil => rfl
  | cons x rest ih =>
      by_cases hc : x ∈ cur
      · have hm : x ∈ cur ++ [a] := List.mem_append_left _ hc
        simp [filterNotIn, hc, hm, ih]
      · by_cases ha : x = a
        · subst ha
          have hm : x ∈ cur ++ [x] := List.mem_append_right _ (List.mem_singleton_self x)
          simp [filterNotIn, hc, hm, ih, removeId]
        · have hm : x ∉ cur ++ [a] := by
            simp only [List.mem_append, List.mem_singleton]
            rintro (h | h)
            · exact hc h
            · exact ha h
          simp [filterNotIn, hc, hm, ih, removeId, ha]

/-- The implementation's add loop computes precisely the spec's union:
the current list unchanged, with the genuinely new ids (first occurrences
only) appended at the end. -/
theorem addLabels_eq_spec (cur added : List String) :
    addLabels cur added = cur ++ dedupKeepFirst (filterNotIn cur added) := by
  induction added generalizing cur with
  | nil => simp [addLabels_nil, filterNotIn, dedupKeepFirst]
  | cons a rest ih =>
      rw [addLabels_cons]
      by_cases h : a ∈ cur
      · rw [if_pos h, ih]
        simp [filterNotIn, h]
      · rw [if_neg h, ih]
        simp only [filterNotIn, if_neg h, dedupKeepFirst,
          filterNotIn_append_singleton, List.append_assoc, List.singleton_append]

/-- The implementation's removal loop is the order-preserving
set-difference. -/
theorem removeLabelsImpl_eq (removed l : List String) :
    removeLabelsImpl removed l = removeLabels removed l := by
  suffices h : ∀ (l acc : List String),
      l.foldl (fun acc x => if x ∈ removed then acc else acc ++ [x]) acc =
        acc ++ removeLabels removed l by
    simpa [removeLabelsImpl] using h l []
  intro l
  induction l with
  | nil => simp [removeLabels]
  | cons y rest ih =>
      intro acc
      by_cases h : y ∈ removed <;> simp [removeLabels, h, ih]

/-- `updateMessage`'s let-chain, flattened into an explicit per-field
record: each field of the result depends only on the corresponding patch
field (and the old value), `id` is untouched, and `time` is copied
unconditionally. -/
theorem updateMessage_eq (m : Message) (u : EventMessageUpdated) :
    updateMessage m u =
      { id := m.id
        time := u.time
        subject := match u.subject with | some s => s | none => m.subject
        sender := match u.sender with | some s => some s | none => m.sender
        toList := match u.toList with | some l => l | none => m.toList
        ccList := match u.ccList with | some l => l | none => m.ccList
        bccList := match u.bccList with | some l => l | none => m.bccList
        unread := match u.unread with | some b => b | none => m.unread
        flags := match u.flags with | some f => f | none => m.flags
        labelIDs := match u.labelIDs with
          | some ls => ls
          | none =>
              removeLabelsImpl u.labelIDsRemoved
                (addLabels m.labelIDs u.labelIDsAdded) } := by
  rcases u with ⟨t, subj, snd, tl, cc, bcc, unr, fl, lids, la, lr⟩
  cases subj <;> cases snd <;> cases tl <;> cases cc <;> cases bcc <;>
    cases unr <;> cases fl <;> cases lids <;> rfl

/-- The implementation's add loop splits into the untouched current list
followed by a block of genuinely new ids. -/
theorem addLabels_decomp (L A : List String) :
    ∃ E, addLabels L A = L ++ E ∧ ∀ x ∈ E, x ∈ A ∧ x ∉ L := by
  induction A generalizing L with
  | nil => exact ⟨[], by simp [addLabels_nil], by simp⟩
  | cons a A ih =>
      rw [addLabels_cons]
      by_cases h : a ∈ L
      · rw [if_pos h]
        obtain ⟨E, hE, hm⟩ := ih L
        exact ⟨E, hE, fun x hx =>
          ⟨List.mem_cons_of_mem _ (hm x hx).1, (hm x hx).2⟩⟩
      · rw [if_neg h]
        obtain ⟨E, hE, hm⟩ := ih (L ++ [a])
        refine ⟨a :: E, by rw [hE]; simp, ?_⟩
        intro x hx
        rcases List.mem_cons.mp hx with rfl | hx
        · exact ⟨List.mem_cons_self _ _, h⟩
        · obtain ⟨hxA, hxL⟩ := hm x hx
          exact ⟨List.mem_cons_of_mem _ hxA,
            fun hmem => hxL (List.mem_append_left _ hmem)⟩

/-- Applying the add-then-remove label reconciliation a second time with
the same `added`/`removed` lists is a no-op. -/
theorem mergeLabels_idem (L A R : List String) :
    removeLabels R (addLabels (removeLabels R (addLabels L A)) A) =
      removeLabels R (addLabels L A) := by
  obtain ⟨E, hE, hm⟩ := addLabels_decomp (removeLabels R (addLabels L A)) A
  rw [hE, removeLabels_append, removeLabels_idem]
  have hnil : removeLabels R E = [] := by
    apply removeLabels_eq_nil
    intro x hx
    obtain ⟨hxA, hxn⟩ := hm x hx
    by_contra hxR
    exact hxn ((mem_removeLabels x R _).mpr
      ⟨(mem_addLabels x L A).mpr (Or.inr hxA), hxR⟩)
  rw [hnil, List.append_nil]

/-- **C3** — For every message and every sparse patch, `updateMessage`
sets `Time` unconditionally from the patch; sets each of `Subject`,
`Sender`, `ToList`, `CCList`, `BCCList`, `Unread`, `Flags` only when that
field is present (non-nil) in the patch; and for labels, a present
`LabelIDs` replaces the whole set, otherwise `LabelIDsAdded` is unioned in
without duplicates (existing order preserved, new ids appended at the end,
`mergeLabelsSpec`) and then `LabelIDsRemoved` is removed as an
order-preserving set-difference; membership in the reconciled list is
exactly (old ∨ added) ∧ ¬removed. -/
theorem claim_C3_patch_merge (m : Message) (u : EventMessageUpdated) :
    (updateMessage m u).time = u.time ∧
    (updateMessage m u).subject
      = (match u.subject with | some s => s | none => m.subject) ∧
    (updateMessage m u).sender
      = (match u.sender with | some s => some s | none => m.sender) ∧
    (updateMessage m u).toList
      = (match u.toList with | some l => l | none => m.toList) ∧
    (updateMessage m u).ccList
      = (match u.ccList with | some l => l | none => m.ccList) ∧
    (updateMessage m u).bccList
      = (match u.bccList with | some l => l | none => m.bccList) ∧
    (updateMessage m u).unread
      = (match u.unread with | some b => b | none => m.unread) ∧
    (updateMessage m u).flags
      = (match u.flags with | some f => f | none => m.flags) ∧
    (updateMessage m u).labelIDs
      = (match u.labelIDs with
         | some ls => ls
         | none => mergeLabelsSpec m.labelIDs u.labelIDsAdded u.labelIDsRemoved) ∧
    (u.labelIDs = none →
      ∀ x, x ∈ (updateMessage m u).labelIDs ↔
        (x ∈ m.labelIDs ∨ x ∈ u.labelIDsAdded) ∧ x ∉ u.labelIDsRemoved) := by
  rw [updateMessage_eq]
  refine ⟨rfl, rfl, rfl, rfl, rfl, rfl, rfl, rfl, ?_, ?_⟩
  · cases h : u.labelIDs with
    | some ls => rfl
    | none =>
        show removeLabelsImpl _ _ = mergeLabelsSpec _ _ _
        rw [removeLabelsImpl_eq, mergeLabelsSpec, addLabels_eq_spec]
  · intro h x
    rw [h]
    show x ∈ removeLabelsImpl _ _ ↔ _
    rw [removeLabelsImpl_eq, mem_removeLabels, mem_addLabels]

/-- Witness for C3 at the concrete `S4` input: the hypothesis of the
membership clause holds and the reconciled list is `[L2, L3]`. -/
theorem claim_C3_patch_merge_witness :
    patchEx.labelIDs = none ∧
    (updateMessage msgEx patchEx).labelIDs = ["L2", "L3"] ∧
    ("L3" ∈ (updateMessage msgEx patchEx).labelIDs ↔
      (("L3" ∈ msgEx.labelIDs ∨ "L3" ∈ patchEx.labelIDsAdded) ∧
        "L3" ∉ patchEx.labelIDsRemoved)) :=
  ⟨rfl, by decide, (claim_C3_patch_merge msgEx patchEx).2.2.2.2.2.2.2.2.2 rfl "L3"⟩

/-- **C4** — For every message and every pair of lists
(`LabelIDsAdded`, `LabelIDsRemoved`) with no full `LabelIDs` replacement
in the patch, applying the label reconciliation twice yields the same
`LabelIDs` list (same elements, same order) as applying it once. -/
theorem claim_C4_label_reconciliation_idempotent (m : Message)
    (u : EventMessageUpdated) (h : u.labelIDs = none) :
    (updateMessage (updateMessage m u) u).labelIDs
      = (updateMessage m u).labelIDs := by
  have e1 : (updateMessage m u).labelIDs =
      removeLabels u.labelIDsRemoved (addLabels m.labelIDs u.labelIDsAdded) := by
    rw [updateMessage_eq]
    simp only [h]
    exact removeLabelsImpl_eq _ _
  have e2 : (updateMessage (updateMessage m u) u).labelIDs =
      removeLabels u.labelIDsRemoved
        (addLabels (updateMessage m u).labelIDs u.labelIDsAdded) := by
    rw [updateMessage_eq]
    simp only [h]
    exact removeLabelsImpl_eq _ _
  rw [e2, e1, mergeLabels_idem]

/-- Witness for C4 at the `S4` input. -/
theorem claim_C4_label_reconciliation_idempotent_witness :
    patchEx.labelIDs = none ∧
    (updateMessage (updateMessage msgEx patchEx) patchEx).labelIDs
      = (updateMessage msgEx patchEx).labelIDs :=
  ⟨rfl, claim_C4_label_reconciliation_idempotent msgEx patchEx rfl⟩

/-! ### Engine lemmas -/

theorem classifyError_none (fd h : Bool) : classifyError none fd h = ⟨none, [], h⟩ := rfl

/-- `setFirstEventID` leaves the state alone when the head fetch failed;
otherwise it moves the in-memory cursor to the fetched head id and the
durable cursor either stays or moves to the same id. -/
theorem setFirstEventID_cursor {σ : Type} (o : IterOracle σ) (s : EngineState σ) :
    ((setFirstEventID o s).2.2 = none → (setFirstEventID o s).1 = s) ∧
    (∀ id, (setFirstEventID o s).2.2 = some id →
      (setFirstEventID o s).1.currentEventID = id ∧
      ((setFirstEventID o s).1.cacheEventID = s.cacheEventID ∨
        (setFirstEventID o s).1.cacheEventID = id)) := by
  cases hg : o.getEvent "" with
  | error e =>
      refine ⟨fun _ => by simp [setFirstEventID, hg], fun id h => ?_⟩
      simp [setFirstEventID, hg] at h
  | ok ev =>
      cases hf : o.firstSetOK <;>
        refine ⟨fun h => by simp [setFirstEventID, hg, hf] at h, fun id h => ?_⟩ <;>
        · simp only [setFirstEventID, hg, hf, Bool.false_eq_true, if_true, if_false,
            ite_true, ite_false, Option.some.injEq] at h ⊢
          subst h
          simp

/-- Cursor behaviour of one `processNextEvent` call: either no event was
applied and both cursors are untouched, or some event `id` was applied,
the in-memory cursor now holds `id`, and the durable cursor either kept
its previous value (persist skipped or failed) or holds `id` as well. -/
theorem processNextEvent_cursor {σ : Type} (o : IterOracle σ) (s : EngineState σ) :
    ((processNextEvent o s).appliedEvent = none ∧
      (processNextEvent o s).state.currentEventID = s.currentEventID ∧
      (processNextEvent o s).state.cacheEventID = s.cacheEventID) ∨
    (∃ id, (processNextEvent o s).appliedEvent = some id ∧
      (processNextEvent o s).state.currentEventID = id ∧
      ((processNextEvent o s).state.cacheEventID = s.cacheEventID ∨
        (processNextEvent o s).state.cacheEventID = id)) := by
  cases hg : o.getEvent s.currentEventID with
  | error e =>
      left
      simp [processNextEvent, hg]
  | ok ev =>
      rcases hp : processEvent o ev s.store with ⟨st, e⟩
      cases e with
      | some e =>
          left
          by_cases hi : s.hasInternet <;> simp [processNextEvent, hg, hi, hp]
      | none =>
          right
          refine ⟨ev.eventID, ?_⟩
          by_cases hc : s.currentEventID = ev.eventID
          · by_cases hi : s.hasInternet <;>
              (simp only [processNextEvent, hg]; simp [hi, hp, hc])
          · cases hs : o.setOK <;> by_cases hi : s.hasInternet <;>
              (simp only [processNextEvent, hg]; simp [hi, hp, hc, hs])

/-- The iteration tail appends at most the id it applied to the ghost
list, and the durable cursor either keeps its value or moves to one of the
newly appended ids. -/
theorem runIterationCore_applied {σ : Type} (o : IterOracle σ) (s : EngineState σ)
    (a : List String) :
    ∃ ext, (runIterationCore o s a).applied = a ++ ext ∧
      ((runIterationCore o s a).state.cacheEventID = s.cacheEventID ∨
        (runIterationCore o s a).state.cacheEventID ∈ ext) := by
  unfold runIterationCore
  generalize hs2 :
    (if o.syncFinished then s else { s with store := o.triggerSync s.store }) = s2
  have hcache : s2.cacheEventID = s.cacheEventID := by
    rw [← hs2]
    by_cases hsy : o.syncFinished <;> simp [hsy]
  rcases processNextEvent_cursor o s2 with ⟨happ, _, hc⟩ | ⟨id, happ, _, hc⟩
  · cases hre : (processNextEvent o s2).err with
    | none =>
        exact ⟨[], by simp [happ, hre], Or.inl (by simp [happ, hre, hc, hcache])⟩
    | some e =>
        exact ⟨[], by simp [happ, hre], Or.inl (by simp [happ, hre, hc, hcache])⟩
  · rcases hc with hc | hc
    · cases hre : (processNextEvent o s2).err with
      | none =>
          exact ⟨[id], by simp [happ, hre], Or.inl (by simp [happ, hre, hc, hcache])⟩
      | some e =>
          exact ⟨[id], by simp [happ, hre], Or.inl (by simp [happ, hre, hc, hcache])⟩
    · cases hre : (processNextEvent o s2).err with
      | none =>
          exact ⟨[id], by simp [happ, hre], Or.inr (by simp [happ, hre, hc])⟩
      | some e =>
          exact ⟨[id], by simp [happ, hre], Or.inr (by simp [happ, hre, hc])⟩

/-- One full iteration appends only newly applied (or head-initialised)
ids, and the durable cursor either keeps its value or moves to one of
them — it is never rolled back to an older id. -/
theorem runIteration_applied {σ : Type} (o : IterOracle σ) (s : EngineState σ)
    (applied : List String) :
    ∃ ext, (runIteration o s applied).applied = applied ++ ext ∧
      ((runIteration o s applied).state.cacheEventID = s.cacheEventID ∨
        (runIteration o s applied).state.cacheEventID ∈ ext) := by
  unfold runIteration
  by_cases hm : s.currentEventID = ""
  · simp only [hm, ite_true, if_true, eq_self_iff_true, if_pos]
    obtain ⟨hnone, hsome⟩ := setFirstEventID_cursor o s
    cases hg : (setFirstEventID o s).2.2 with
    | none =>
        have hs1 : (setFirstEventID o s).1 = s := hnone hg
        simp only [hg, hs1]
        exact runIterationCore_applied o s applied
    | some id =>
        obtain ⟨_, hcache1⟩ := hsome id hg
        simp only [hg]
        obtain ⟨ext, hext, hcc⟩ :=
          runIterationCore_applied o (setFirstEventID o s).1 (applied ++ [id])
        refine ⟨id :: ext, ?_, ?_⟩
        · rw [hext]; simp
        · rcases hcc with h | h
          · rcases hcache1 with h1 | h1
            · exact Or.inl (h.trans h1)
            · exact Or.inr (by rw [h, h1]; exact List.mem_cons_self _ _)
          · exact Or.inr (List.mem_cons_of_mem _ h)
  · simp only [hm, ite_false, if_neg hm]
    exact runIterationCore_applied o s applied

/-- The loop invariant: starting from a state whose durable cursor is the
empty sentinel or one of the ghost ids, every run ends in such a state,
and the ghost list only ever grows. -/
theorem runLoop_inv {σ : Type} (os : List (IterOracle σ)) (s : EngineState σ)
    (a : List String) (h : s.cacheEventID = "" ∨ s.cacheEventID ∈ a) :
    ((runLoop os s a).1.cacheEventID = "" ∨
      (runLoop os s a).1.cacheEventID ∈ (runLoop os s a).2) ∧
    ∃ ext, (runLoop os s a).2 = a ++ ext := by
  induction os generalizing s a with
  | nil => exact ⟨h, [], by simp [runLoop]⟩
  | cons o os ih =>
      obtain ⟨ext, hext, hcc⟩ := runIteration_applied o s a
      have h' : (runIteration o s a).state.cacheEventID = "" ∨
          (runIteration o s a).state.cacheEventID ∈ (runIteration o s a).applied := by
        rcases hcc with hsame | hmem
        · rcases h with h0 | h0
          · exact Or.inl (hsame.trans h0)
          · exact Or.inr (by rw [hsame, hext]; exact List.mem_append_left _ h0)
        · exact Or.inr (by rw [hext]; exact List.mem_append_right _ hmem)
      cases hd : (runIteration o s a).decision with
      | exitFatal =>
          simp only [runLoop, hd]
          exact ⟨h', ext, hext⟩
      | keepRunning b =>
          simp only [runLoop, hd]
          obtain ⟨hinv, ext', hext'⟩ :=
            ih (runIteration o s a).state (runIteration o s a).applied h'
          exact ⟨hinv, ext ++ ext', by rw [hext', hext, List.append_assoc]⟩

/-- **C1** — For every processed event stream, the engine's cursor only
moves to the `EventID` returned by an event whose processing succeeded
(or, from the empty sentinel, to the head id returned by `GetEvent("")`),
and it is never rolled back: after any prefix of the run starting from an
uninitialised cursor, the persisted cursor is the empty sentinel or one of
the applied ids recorded by the run (first conjunct), and in every single
iteration the persisted cursor either keeps its previous value or moves to
an id applied during that same iteration — never to an id outside the
stream and never ahead of what was applied (second conjunct). -/
theorem claim_C1_cursor_only_applied_ids :
    (∀ (σ : Type) (os : List (IterOracle σ)) (st : σ),
      (runLoop os (initEngine "" st) []).1.cacheEventID = "" ∨
        (runLoop os (initEngine "" st) []).1.cacheEventID
          ∈ (runLoop os (initEngine "" st) []).2) ∧
    (∀ (σ : Type) (o : IterOracle σ) (s : EngineState σ) (applied : List String),
      ∃ ext, (runIteration o s applied).applied = applied ++ ext ∧
        ((runIteration o s applied).state.cacheEventID = s.cacheEventID ∨
          (runIteration o s applied).state.cacheEventID ∈ ext)) :=
  ⟨fun _ os st => (runLoop_inv os (initEngine "" st) [] (Or.inl rfl)).1,
    fun _ o s applied => runIteration_applied o s applied⟩

/-- **C2** — For every event whose `Refresh` bitmask has the MAIL bit
set, processing skips all five delta appliers — `processEvent` is
`(triggerSync st, nil)` for any store and any appliers, so no per-entity
state of addresses, labels, messages, counts, or notices is mutated by the
event — calls the sync coordinator's `triggerSync`, and (when the cursor
moved and the persist succeeds) still advances both the in-memory and the
persisted cursor to this event's `EventID`, returning no error. -/
theorem claim_C2_refresh_mail_skips_appliers (σ : Type) (o : IterOracle σ)
    (s : EngineState σ) (ev : Event)
    (hfetch : o.getEvent s.currentEventID = .ok ev)
    (hmail : ev.refresh &&& eventRefreshMail ≠ 0)
    (hne : s.currentEventID ≠ ev.eventID)
    (hset : o.setOK = true) :
    (∀ st, processEvent o ev st = (o.triggerSync st, none)) ∧
    (processNextEvent o s).state.store = o.triggerSync s.store ∧
    (processNextEvent o s).state.currentEventID = ev.eventID ∧
    (processNextEvent o s).state.cacheEventID = ev.eventID ∧
    (processNextEvent o s).err = none := by
  have hpe : ∀ st, processEvent o ev st = (o.triggerSync st, none) := by
    intro st
    simp [processEvent, hmail]
  refine ⟨hpe, ?_, ?_, ?_, ?_⟩ <;>
    by_cases hi : s.hasInternet <;>
      (simp only [processNextEvent, hfetch]; simp [hi, hpe, hne, hset, classifyError])

/-- Witness for C2: the concrete `S5` run — refresh event `evC2` with a
message delta on board, persist succeeding — triggers exactly one sync
(`store = 1`, never `+ 100` from an applier) and advances both cursors to
`e5`. -/
theorem claim_C2_refresh_mail_skips_appliers_witness :
    (evC2.refresh &&& eventRefreshMail ≠ 0) ∧
    ("e0" : String) ≠ "e5" ∧
    processEvent oC2 evC2 sEng.store = (1, none) ∧
    (processNextEvent oC2 sEng).state.store = 1 ∧
    (processNextEvent oC2 sEng).state.currentEventID = "e5" ∧
    (processNextEvent oC2 sEng).state.cacheEventID = "e5" ∧
    (processNextEvent oC2 sEng).err = none := by
  have h := claim_C2_refresh_mail_skips_appliers Nat oC2 sEng evC2 rfl
    (by decide) (by decide) rfl
  exact ⟨by decide, by decide, (h.1 sEng.store).trans rfl, h.2.1.trans rfl,
    h.2.2.1, h.2.2.2.1, h.2.2.2.2⟩

/-- **C5 (counterexample)** — The FD probe is *not* orthogonal to error
kind: in the concrete iteration whose fetch fails with
`ErrAPINotReachable` while `isFdCloseToULimit()` is true, `InternetOff` is
emitted but `RestartBridge` is not — the deferred classifier nils a
`NotReachable` error before the FD check can see it. -/
theorem claim_C5_fd_probe_counterexample :
    oNotReachFd.fdNearULimit = true ∧
    (processNextEvent oNotReachFd sEng).emits = [.internetOff] ∧
    BridgeEvent.restartBridge ∉ (processNextEvent oNotReachFd sEng).emits ∧
    (processNextEvent oNotReachFd sEng).err = none := by
  refine ⟨rfl, rfl, ?_, rfl⟩
  have he : (processNextEvent oNotReachFd sEng).emits = [.internetOff] := rfl
  rw [he]
  simp

/-- **C5 (amended)** — The FD probe fires for every error *other than*
`NotReachable`: when the fetch (or any classified return) carries an error
`e ≠ NotReachable` and FD usage is near the ulimit, `RestartBridge` is
emitted and the error is swallowed; a `NotReachable` error is instead
swallowed by the earlier offline check, emitting only `InternetOff`, and
the FD probe never fires for it even when FD usage is near the ulimit. -/
theorem claim_C5_fd_probe_amended :
    (∀ (e : ApiErr) (h : Bool), e ≠ .notReachable →
      (classifyError (some e) true h).err = none ∧
      BridgeEvent.restartBridge ∈ (classifyError (some e) true h).emits) ∧
    (∀ h : Bool, classifyError (some .notReachable) true h
      = ⟨none, [.internetOff], false⟩) ∧
    (∀ (σ : Type) (o : IterOracle σ) (s : EngineState σ) (e : ApiErr),
      o.getEvent s.currentEventID = .error e → e ≠ .notReachable →
      o.fdNearULimit = true →
      (processNextEvent o s).err = none ∧
      BridgeEvent.restartBridge ∈ (processNextEvent o s).emits) := by
  have hcl : ∀ (e : ApiErr) (h : Bool), e ≠ .notReachable →
      (classifyError (some e) true h).err = none ∧
      BridgeEvent.restartBridge ∈ (classifyError (some e) true h).emits := by
    intro e h hne
    cases e <;> first
      | exact absurd rfl hne
      | exact ⟨rfl, by simp [classifyError]⟩
  refine ⟨hcl, fun h => rfl, ?_⟩
  intro σ o s e hfetch hne hfd
  have := hcl e s.hasInternet hne
  simp only [processNextEvent, hfetch, hfd] at *
  exact this

/-- Witness for C5 (amended): a generic fetch error with the FD probe
firing yields a swallowed error plus a `RestartBridge` emission, at the
classifier and through a full `processNextEvent` iteration. -/
theorem claim_C5_fd_probe_amended_witness :
    (ApiErr.generic ≠ ApiErr.notReachable) ∧
    (classifyError (some .generic) true true).err = none ∧
    BridgeEvent.restartBridge ∈ (classifyError (some .generic) true true).emits ∧
    (processNextEvent oGenFd sEng).err = none ∧
    BridgeEvent.restartBridge ∈ (processNextEvent oGenFd sEng).emits := by
  have h1 := claim_C5_fd_probe_amended.1 .generic true (by decide)
  have h2 := claim_C5_fd_probe_amended.2.2 Nat oGenFd sEng .generic rfl (by decide) rfl
  exact ⟨by decide, h1.1, h1.2, h2.1, h2.2⟩

/-- **C6 (counterexample)** — A successfully-applied event with
`More == 1` does *not* always make `processNextEvent` return `more =
true`: in the concrete iteration where the cursor persist fails
(`setOK = false`), the source's `return false, errors.Wrap(err, …)` inside
the persist branch yields `more = false` (the write error itself being
swallowed by the classifier). -/
theorem claim_C6_more_counterexample :
    evMore.more = 1 ∧
    (processEvent oC6fail evMore sEng.store).2 = none ∧
    oC6fail.setOK = false ∧
    (processNextEvent oC6fail sEng).more = false ∧
    (processNextEvent oC6fail sEng).err = none ∧
    (processNextEvent oC6fail sEng).state.currentEventID = "e1" :=
  ⟨rfl, rfl, rfl, rfl, rfl, rfl⟩

/-- **C6 (amended)** — For every fetched event whose appliers succeed,
`processNextEvent` returns `more = (event.More == 1)` when the cursor
persist succeeds (or is unnecessary); when the persist fails it returns
`more = false` together with a swallowed (nil after classification)
error. Whenever an iteration's `processNextEvent` reports no error, the
engine keeps running and schedules an immediate self-`PollNow` exactly
when `more` was reported — without waiting for the 30 s timer. -/
theorem claim_C6_more_amended :
    (∀ (σ : Type) (o : IterOracle σ) (s : EngineState σ) (ev : Event),
      o.getEvent s.currentEventID = .ok ev →
      (processEvent o ev s.store).2 = none →
      o.setOK = true →
      (processNextEvent o s).more = (ev.more == 1)) ∧
    (∀ (σ : Type) (o : IterOracle σ) (s : EngineState σ) (ev : Event),
      o.getEvent s.currentEventID = .ok ev →
      (processEvent o ev s.store).2 = none →
      s.currentEventID ≠ ev.eventID →
      o.setOK = false →
      (processNextEvent o s).more = false ∧ (processNextEvent o s).err = none) ∧
    (∀ (σ : Type) (o : IterOracle σ) (s : EngineState σ) (a : List String),
      s.currentEventID ≠ "" → o.syncFinished = true →
      (processNextEvent o s).err = none →
      (runIteration o s a).decision = .keepRunning (processNextEvent o s).more) := by
  refine ⟨?_, ?_, ?_⟩
  · intro σ o s ev hfetch hps hset
    rcases hp : processEvent o ev s.store with ⟨st, e⟩
    rw [hp] at hps
    subst hps
    by_cases hc : s.currentEventID = ev.eventID <;> by_cases hi : s.hasInternet <;>
      (simp only [processNextEvent, hfetch]; simp [hi, hp, hc, hset, classifyError])
  · intro σ o s ev hfetch hps hne hset
    rcases hp : processEvent o ev s.store with ⟨st, e⟩
    rw [hp] at hps
    subst hps
    cases hfd : o.fdNearULimit <;> by_cases hi : s.hasInternet <;>
      (simp only [processNextEvent, hfetch]; simp [hi, hp, hne, hset, hfd, classifyError])
  · intro σ o s a hm hsy herr
    unfold runIteration runIterationCore
    simp only [if_neg hm, hsy, ite_true, if_true]
    simp [herr]

/-- Witness for C6 (amended): with `evMore` (`More = 1`) and a succeeding
persist, `more = true` is returned and the iteration schedules a
self-`PollNow`. -/
theorem claim_C6_more_amended_witness :
    oC6ok.getEvent sEng.currentEventID = .ok evMore ∧
    (processEvent oC6ok evMore sEng.store).2 = none ∧
    oC6ok.setOK = true ∧
    (processNextEvent oC6ok sEng).more = true ∧
    sEng.currentEventID ≠ "" ∧
    (processNextEvent oC6ok sEng).err = none ∧
    (runIteration oC6ok sEng []).decision = .keepRunning true := by
  have h1 := claim_C6_more_amended.1 Nat oC6ok sEng evMore rfl rfl rfl
  have h3 := claim_C6_more_amended.2.2 Nat oC6ok sEng [] (by decide) rfl rfl
  exact ⟨rfl, rfl, rfl, h1.trans rfl, by decide, rfl, h3.trans rfl⟩

/-- **C7 (counterexample)** — A fatal error kind does *not* always
terminate the loop with exactly one Logout: in the concrete iteration
whose fetch fails with `ErrInvalidToken` while `isFdCloseToULimit()` is
true, the FD check (which runs before the fatal-kind check nils other
errors) swallows the fatal error, emits `RestartBridge`, performs no
Logout, and the loop keeps running. -/
theorem claim_C7_fatal_counterexample :
    oInvFd.fdNearULimit = true ∧
    (runIteration oInvFd sEng []).decision = .keepRunning false ∧
    (runIteration oInvFd sEng []).engineLogouts = 0 ∧
    (runIteration oInvFd sEng []).emits = [.restartBridge] :=
  ⟨rfl, rfl, rfl, rfl⟩

/-- **C7 (amended)** — When FD usage is *not* near the ulimit, the
classifier propagates exactly the fatal kinds (`Unauthorized`,
`InvalidToken`, wrapping-transparent), every other error is swallowed; a
propagated error makes the iteration exit after exactly one engine-level
Logout. When FD usage *is* near the ulimit, a fatal error is swallowed
with a `RestartBridge` emission and the loop continues. And when the
fatal error originates from the address applier's failed `UpdateUser`,
that applier has itself already logged the user out, so Logout runs twice
for that occurrence (once in the applier — counted in the store — and
once by the engine). -/
theorem claim_C7_fatal_errors_amended :
    (∀ (e : ApiErr) (h : Bool), e = .unauthorized ∨ e = .invalidToken →
      (classifyError (some e) false h).err = some e) ∧
    (∀ (e : ApiErr) (h : Bool), e ≠ .unauthorized → e ≠ .invalidToken →
      (classifyError (some e) false h).err = none) ∧
    (∀ (e : ApiErr) (h : Bool), e = .unauthorized ∨ e = .invalidToken →
      classifyError (some e) true h = ⟨none, [.restartBridge], h⟩) ∧
    (∀ (σ : Type) (o : IterOracle σ) (s : EngineState σ) (e : ApiErr),
      o.getEvent s.currentEventID = .error e →
      (processNextEvent o s).err
        = (classifyError (some e) o.fdNearULimit s.hasInternet).err) ∧
    (∀ (σ : Type) (o : IterOracle σ) (s : EngineState σ) (a : List String),
      s.currentEventID ≠ "" → o.syncFinished = true →
      (processNextEvent o s).err ≠ none →
      (runIteration o s a).decision = .exitFatal ∧
        (runIteration o s a).engineLogouts = 1) ∧
    ((runIteration oUpd sEng []).decision = .exitFatal ∧
      (runIteration oUpd sEng []).engineLogouts = 1 ∧
      (runIteration oUpd sEng []).state.store = 1) := by
  refine ⟨?_, ?_, ?_, ?_, ?_, rfl, rfl, rfl⟩
  · intro e h he
    rcases he with rfl | rfl <;> rfl
  · intro e h h1 h2
    cases e <;> first
      | exact absurd rfl h1
      | exact absurd rfl h2
      | rfl
  · intro e h he
    rcases he with rfl | rfl <;> rfl
  · intro σ o s e hfetch
    simp [processNextEvent, hfetch]
  · intro σ o s a hm hsy herr
    unfold runIteration runIterationCore
    simp only [if_neg hm, hsy, ite_true, if_true]
    cases hE : (processNextEvent o s).err with
    | none => exact absurd hE herr
    | some e => simp [hE]

/-- Witness for C7 (amended): a fatal `ErrInvalidToken` fetch failure
with the FD probe quiet survives classification, exits the loop and logs
out exactly once at engine level. -/
theorem claim_C7_fatal_errors_amended_witness :
    (classifyError (some .invalidToken) false true).err = some .invalidToken ∧
    (processNextEvent oInvTok sEng).err = some .invalidToken ∧
    (runIteration oInvTok sEng []).decision = .exitFatal ∧
    (runIteration oInvTok sEng []).engineLogouts = 1 := by
  have h1 := claim_C7_fatal_errors_amended.1 .invalidToken true (Or.inr rfl)
  have h4 := claim_C7_fatal_errors_amended.2.2.2.1 Nat oInvTok sEng
    .invalidToken rfl
  have h5 := claim_C7_fatal_errors_amended.2.2.2.2.1 Nat oInvTok sEng []
    (by decide) rfl (by decide)
  exact ⟨h1, h4.trans rfl, h5.1, h5.2⟩

/-- **C8** — For every successfully-applied event whose cursor persist
(`setEventID`) fails, the in-memory cursor retains the new `EventID` (not
rolled back), the durable cursor keeps its previous value, the write error
is swallowed by the classifier (not fatal), and the iteration keeps the
loop running — subsequent fetches use the advanced in-memory cursor. -/
theorem claim_C8_persist_failure_tolerated (σ : Type) (o : IterOracle σ)
    (s : EngineState σ) (ev : Event) (a : List String)
    (hfetch : o.getEvent s.currentEventID = .ok ev)
    (hps : (processEvent o ev s.store).2 = none)
    (hne : s.currentEventID ≠ ev.eventID)
    (hset : o.setOK = false)
    (hm : s.currentEventID ≠ "")
    (hsy : o.syncFinished = true) :
    (processNextEvent o s).state.currentEventID = ev.eventID ∧
    (processNextEvent o s).state.cacheEventID = s.cacheEventID ∧
    (processNextEvent o s).err = none ∧
    (runIteration o s a).decision = .keepRunning false := by
  rcases hp : processEvent o ev s.store with ⟨st, e⟩
  rw [hp] at hps
  subst hps
  have key : (processNextEvent o s).state.currentEventID = ev.eventID ∧
      (processNextEvent o s).state.cacheEventID = s.cacheEventID ∧
      (processNextEvent o s).err = none ∧
      (processNextEvent o s).more = false := by
    cases hfd : o.fdNearULimit <;> by_cases hi : s.hasInternet <;>
      (simp only [processNextEvent, hfetch]; simp [hi, hp, hne, hset, hfd, classifyError])
  refine ⟨key.1, key.2.1, key.2.2.1, ?_⟩
  unfold runIteration runIterationCore
  simp only [if_neg hm, hsy, ite_true, if_true]
  simp [key.2.2.1, key.2.2.2]

/-- Witness for C8: the concrete failing-persist run — in-memory cursor
advances to `e1`, durable cursor stays at `e0`, the loop keeps running. -/
theorem claim_C8_persist_failure_tolerated_witness :
    oC6fail.getEvent sEng.currentEventID = .ok evMore ∧
    (processEvent oC6fail evMore sEng.store).2 = none ∧
    oC6fail.setOK = false ∧
    (processNextEvent oC6fail sEng).state.currentEventID = "e1" ∧
    (processNextEvent oC6fail sEng).state.cacheEventID = "e0" ∧
    (processNextEvent oC6fail sEng).err = none ∧
    (runIteration oC6fail sEng []).decision = .keepRunning false := by
  have h := claim_C8_persist_failure_tolerated Nat oC6fail sEng evMore []
    rfl rfl (by decide) rfl (by decide) rfl
  exact ⟨rfl, rfl, rfl, h.1, h.2.1, h.2.2.1, h.2.2.2⟩

/-- **C9 (code bug)** — A stale `update` delta (absent locally and
remotely) is skipped by `continue`, but the skip leaves
`err = ErrNoSuchAPIID` in `processMessages`' named return: when the
skipped delta is the last one, `processMessages` returns that error, the
event fails, and the cursor does *not* advance — contradicting the
source's own "Skipping message update" intent and the spec. A later
successful delta masks the leaked error, so the behaviour depends on the
delta's position. The engine-level conjuncts evaluate the full iteration
at the failing input: the error is then swallowed and the cursor stays at
`e2`, so the same event would be refetched forever. -/
theorem claim_C9_stale_update_leaks_error :
    processMessages [] [] [updEx] = ([], some .noSuchAPIID) ∧
    processMessages [] [] [updEx, createEx] = ([("m1", msgEx)], none) ∧
    processMessages [] [] [createEx, updEx] = ([("m1", msgEx)], some .noSuchAPIID) ∧
    (processNextEvent oC9 sC9).err = none ∧
    (processNextEvent oC9 sC9).state.currentEventID = "e2" ∧
    (processNextEvent oC9 sC9).state.cacheEventID = "e2" ∧
    (processNextEvent oC9 sC9).appliedEvent = none := by
  refine ⟨by decide, by decide, by decide, rfl, rfl, rfl, rfl⟩

/-- **C10** — For every message delta with action `create` whose
`Created` payload is nil, `processMessages` skips that delta without
touching the store or the threaded error: the whole run is equal to the
run with the delta removed (so remaining deltas are still applied and the
event's success is unaffected), and on its own such a delta yields no
error and no store write. -/
theorem claim_C10_create_nil_skipped (remote db : MsgStore)
    (xs ys : List EventMessage) (m : EventMessage)
    (ha : m.action = .create) (hc : m.created = none) :
    processMessages remote db (xs ++ m :: ys) = processMessages remote db (xs ++ ys) ∧
    processMessages remote db [m] = (db, none) := by
  have hstep : ∀ (st : MsgStore × Option ApiErr),
      processMsgDelta remote st.1 st.2 m = st := by
    intro st
    rcases st with ⟨d, e⟩
    simp [processMsgDelta, ha, hc]
  constructor
  · unfold processMessages
    rw [List.foldl_append, List.foldl_append, List.foldl_cons]
    congr 1
    exact hstep _
  · unfold processMessages
    rw [List.foldl_cons, hstep]
    rfl

/-- Witness for C10: a nil-payload `create` delta between a `create` and
a (stale) `update` delta changes nothing, and alone it returns the store
untouched with no error. -/
theorem claim_C10_create_nil_skipped_witness :
    createNilEx.action = .create ∧
    createNilEx.created = none ∧
    processMessages [] [] ([createEx] ++ createNilEx :: [updEx])
      = processMessages [] [] ([createEx] ++ [updEx]) ∧
    processMessages [] [] [createNilEx] = ([], none) := by
  have h := claim_C10_create_nil_skipped [] [] [createEx] [updEx] createNilEx rfl rfl
  exact ⟨rfl, rfl, h.1, h.2⟩

end EventLoop
